import Mathlib

/-!
Shallow embedding of the GCC-Graph-Algorithms repository (two Python files:
`chapter 2/bfs/bfs.py`, a chess-piece BFS shortest-path visualizer, and
`chapter 2/bfs/tree_diameter.py`, a user-built-graph double-BFS diameter
tool).  UI-only code (pygame drawing, animation, timing) is out of scope;
the algorithmic state and transitions are embedded faithfully, statement by
statement.
-/

namespace BfsPy

/-- The `Point` class from bfs.py: a board coordinate.  Python ints are unbounded, so
coordinates are `Int`.  Structural equality mirrors `Point.__eq__`. -/
structure Point where
  x : Int
  y : Int
deriving DecidableEq, Repr

/-- The constant `BOARD_SIZE = 8`. -/
def BOARD_SIZE : Int := 8

/-- The `KNIGHT_MOVES` table: the eight L-shaped offsets, in source order. -/
def KNIGHT_MOVES : List (Int × Int) :=
  [(2, 1), (2, -1), (-2, 1), (-2, -1), (1, 2), (1, -2), (-1, 2), (-1, -2)]

/-- Function `is_on_board(p)`: membership in the 8×8 board. -/
def is_on_board (p : Point) : Bool :=
  0 ≤ p.x && p.x < BOARD_SIZE && 0 ≤ p.y && p.y < BOARD_SIZE

/-- Function `get_knight_moves(p)`: in-bounds knight offsets from `p`, in source
order. -/
def get_knight_moves (p : Point) : List Point :=
  (KNIGHT_MOVES.map (fun d => Point.mk (p.x + d.1) (p.y + d.2))).filter
    is_on_board

/-- The mutable state of `BFSVisualizer` restricted to the fields the BFS
algorithm reads or writes (drawing/animation scalars are omitted; they are
never read by the search).  `visited` is a Python `set` used only through
membership and `add`; it is embedded as the list of elements in insertion
order.  `parents` is the dict as an association list. -/
structure GState where
  start_pos : Option Point
  goal_pos : Option Point
  running_bfs : Bool
  path_found : Bool
  animating_path : Bool
  queue : List Point
  visited : List Point
  parents : List (Point × Option Point)
  edges_explored : List (Point × Point)
  current_node : Option Point
  shortest_path : List Point
deriving Repr, DecidableEq

/-- Python's `dict.get(curr)` on the parents map: returns `None` both when `curr`
is absent and when its stored parent is `None`, exactly as in Python. -/
def parentsGet (ps : List (Point × Option Point)) (k : Point) : Option Point :=
  match ps.lookup k with
  | some v => v
  | none => none

/-- The `while curr is not None` loop body of `reconstruct_path`, with fuel
(the Python loop's termination relies on the parents map being acyclic). -/
def backtrack (ps : List (Point × Option Point)) (start_pos : Option Point) :
    Nat → Option Point → List Point → List Point
  | 0, _, acc => acc
  | _ + 1, none, acc => acc
  | fuel + 1, some curr, acc =>
    let acc := acc ++ [curr]
    if some curr = start_pos then acc
    else backtrack ps start_pos fuel (parentsGet ps curr) acc

/-- Method `reconstruct_path`: backtracks from `goal_pos` using the parents map and
reverses.  Fuel `ps.length + 1` covers every acyclic chain through `ps`. -/
def reconstruct_path (s : GState) : GState :=
  let temp := backtrack s.parents s.start_pos (s.parents.length + 1)
      s.goal_pos []
  { s with shortest_path := temp.reverse }

/-- The neighbor-expansion loop of `step_bfs`: for each neighbor not yet
visited, mark visited, record parent, enqueue, log the explored edge. -/
def expand (current : Point) (nbrs : List Point) (s : GState) : GState :=
  nbrs.foldl
    (fun s n =>
      if n ∈ s.visited then s
      else
        { s with
          visited := s.visited ++ [n]
          parents := s.parents ++ [(n, some current)]
          queue := s.queue ++ [n]
          edges_explored := s.edges_explored ++ [(current, n)] })
    s

/-- Method `step_bfs`, parametrised by the active piece's move function.  An empty
queue clears `running_bfs` and returns; otherwise the head is popped, the
goal test runs, and on failure the neighbors are expanded. -/
def step_bfs (move_func : Point → List Point) (s : GState) : GState :=
  match s.queue with
  | [] => { s with running_bfs := false }
  | current :: rest =>
    let s := { s with queue := rest, current_node := some current }
    if s.goal_pos = some current then
      let s := reconstruct_path s
      { s with running_bfs := false, path_found := true,
               animating_path := true }
    else
      expand current (move_func current) s

/-- Method `start_bfs`: returns unchanged unless start and goal are set and no
search is running; otherwise resets the search containers and seeds the
queue, visited set and parents map with the start square. -/
def start_bfs (s : GState) : GState :=
  match s.start_pos, s.goal_pos, s.running_bfs with
  | some st, some _, false =>
    { s with
      queue := [st]
      visited := [st]
      parents := [(st, none)]
      edges_explored := []
      shortest_path := []
      path_found := false
      animating_path := false
      current_node := none
      running_bfs := true }
  | _, _, _ => s

/-- The driver loop's `if self.running_bfs: self.step_bfs()`, iterated with
fuel. -/
def run_bfs (move_func : Point → List Point) : Nat → GState → GState
  | 0, s => s
  | fuel + 1, s =>
    if s.running_bfs then run_bfs move_func fuel (step_bfs move_func s)
    else s

/-- A fresh visualizer state after `reset_state` with a chosen start and
goal square (the state `handle_mouse_click` builds before SPACE is hit). -/
def initState (st g : Point) : GState :=
  { start_pos := some st, goal_pos := some g, running_bfs := false,
    path_found := false, animating_path := false, queue := [],
    visited := [], parents := [], edges_explored := [],
    current_node := none, shortest_path := [] }

end BfsPy

namespace TreeDiameter

/-- tree_diameter.py `Node` objects compare by identity (no `__eq__`); they
are embedded as numeric identities.  The mutable per-object fields
(`Visited`, `Distance`, `Neighbours`) become maps from identities. -/
abbrev NodeId := Nat

/-- The editor's graph: the global `nodes` list, each node's `Neighbours`
list (association list by identity) and the global `edges` list, each edge
as its `(start, end)` pair of identities. -/
structure UGraph where
  nodes : List NodeId
  nbrs : List (NodeId × List NodeId)
  edges : List (NodeId × NodeId)
deriving Repr, DecidableEq

/-- A node's `Neighbours` list (empty when the identity is unknown). -/
def lookupNbrs (g : UGraph) (n : NodeId) : List NodeId :=
  (g.nbrs.lookup n).getD []

/-- The DELETE-key handler in `main` (lines 168–176): every edge whose
`other_end(selected_node)` is truthy — i.e. has `selected_node` as an
endpoint — is removed from `edges`, and `selected_node` is removed from
`nodes`.  No `Neighbours` list is modified by the handler. -/
def removeNode (g : UGraph) (sel : NodeId) : UGraph :=
  { g with
    edges := g.edges.filter (fun e => !(e.2 == sel || e.1 == sel))
    nodes := g.nodes.erase sel }

/-- The right-click handler's edge insertion (lines 155–161): rejected when
the clicked node is already a neighbour or equals the selected node;
otherwise both `Neighbours` lists gain the other node and the edge is
appended. -/
def addEdge (g : UGraph) (sel clicked : NodeId) : UGraph :=
  if clicked ∉ lookupNbrs g sel then
    if sel ≠ clicked then
      { g with
        nbrs := (sel, lookupNbrs g sel ++ [clicked]) ::
          (clicked, lookupNbrs g clicked ++ [sel]) :: g.nbrs
        edges := g.edges ++ [(sel, clicked)] }
    else g
  else g

/-- The state of one `bfs` run in tree_diameter.py: the queue (source
spelling `qeue`), the set of identities whose `Visited` flag is True (in
the order the flag was set), the `Distance` fields that have been assigned
(unassigned means the reset value 0), and the current `far_node`. -/
structure TState where
  qeue : List NodeId
  visited : List NodeId
  dist : List (NodeId × Nat)
  far_node : NodeId
deriving Repr, DecidableEq

/-- Reading a `Distance` field: assigned value, or 0 after `reset_nodes`. -/
def lookupDist (d : List (NodeId × Nat)) (n : NodeId) : Nat :=
  (d.lookup n).getD 0

/-- Assigning a `Distance` field (front insertion shadows older entries). -/
def setDist (d : List (NodeId × Nat)) (n : NodeId) (v : Nat) :
    List (NodeId × Nat) :=
  (n, v) :: d

/-- Body of `for node in corrent_node.Neighbours` (bfs, lines 61–67): the
neighbour is appended to the queue unconditionally; if its `Distance` is 0
and it is not the start it is assigned `corrent_node.Distance + 1`, and
`far_node` is replaced by it when the new distance strictly exceeds
`far_node`'s distance. -/
def visitNeighbour (start c : NodeId) (s : TState) (n : NodeId) : TState :=
  let s := { s with qeue := s.qeue ++ [n] }
  if lookupDist s.dist n = 0 ∧ n ≠ start then
    let d := setDist s.dist n (lookupDist s.dist c + 1)
    let f := if lookupDist d n > lookupDist d s.far_node then n
      else s.far_node
    { s with dist := d, far_node := f }
  else s

/-- One iteration of `bfs`'s `while(qeue)` loop: the head is peeked; a
visited head is popped; otherwise every neighbour is processed (appends go
behind the still-present head), the head's `Visited` flag is set, and the
head is popped. -/
def tStep (adj : NodeId → List NodeId) (start : NodeId) (s : TState) :
    TState :=
  match s.qeue with
  | [] => s
  | c :: _ =>
    if c ∈ s.visited then { s with qeue := s.qeue.tail }
    else
      let s := (adj c).foldl (visitNeighbour start c) s
      { s with visited := s.visited ++ [c], qeue := s.qeue.tail }

/-- The run state at `bfs`'s entry: `qeue=deque([start])`, all `Visited`
flags False and all `Distance` fields 0 (as `reset_nodes` leaves them),
`far_node=start`. -/
def tInit (start : NodeId) : TState :=
  { qeue := [start], visited := [], dist := [], far_node := start }

/-- The `while(qeue)` loop of `bfs` run with fuel: stops when the queue is empty
or the fuel runs out. -/
def tRun (adj : NodeId → List NodeId) (start : NodeId) :
    Nat → TState → TState
  | 0, s => s
  | fuel + 1, s =>
    match s.qeue with
    | [] => s
    | _ :: _ => tRun adj start fuel (tStep adj start s)

/-- Function `bfs(draw, start)`: runs the loop and returns `far_node` together with
the final run state. -/
def bfs (adj : NodeId → List NodeId) (start : NodeId) (fuel : Nat) :
    NodeId × TState :=
  let s := tRun adj start fuel (tInit start)
  (s.far_node, s)

/-- Function `find_diameter(draw, selected_node)`: two `bfs` passes with
`reset_nodes` before each (a fresh `tInit`, since reset clears every
`Visited` flag and `Distance`).  Returns the endpoint pair `(start, end)`
and `end`'s distance after the second pass, which `draw` displays as the
diameter. -/
def find_diameter (adj : NodeId → List NodeId) (fuel : Nat)
    (seed : NodeId) : (NodeId × NodeId) × Nat :=
  let p1 := bfs adj seed fuel
  let p2 := bfs adj p1.1 fuel
  ((p1.1, p2.1), lookupDist p2.2.dist p2.1)

/-- The 5-node star graph of the spec's diameter test: centre 0 with
`Neighbours` the four leaves 1–4, each leaf with `Neighbours` `[0]`. -/
def starAdj : NodeId → List NodeId
  | 0 => [1, 2, 3, 4]
  | 1 => [0]
  | 2 => [0]
  | 3 => [0]
  | 4 => [0]
  | _ => []

/-- A 3-node path graph 1 — 0 — 2 (centre 0), used as a concrete run of
the editor's BFS. -/
def pathAdj : NodeId → List NodeId
  | 0 => [1, 2]
  | 1 => [0]
  | 2 => [0]
  | _ => []

/-- The two-node editor graph built by `addEdge`: nodes 0 and 1 joined by
one edge, each listing the other as its neighbour. -/
def g2 : UGraph := addEdge { nodes := [0, 1], nbrs := [], edges := [] } 0 1

/-- Processing one neighbour never touches the `Visited` flags. -/
theorem visitNeighbour_visited (start c : NodeId) (s : TState) (n : NodeId) :
    (visitNeighbour start c s n).visited = s.visited := by
  unfold visitNeighbour
  dsimp only
  split <;> rfl

/-- Processing one neighbour appends exactly that neighbour to the
queue. -/
theorem visitNeighbour_qeue (start c : NodeId) (s : TState) (n : NodeId) :
    (visitNeighbour start c s n).qeue = s.qeue ++ [n] := by
  unfold visitNeighbour
  dsimp only
  split <;> rfl

/-- The neighbour loop leaves the `Visited` flags unchanged and appends
exactly the neighbour list to the queue. -/
theorem visitFold_spec (start c : NodeId) :
    ∀ (ns : List NodeId) (s : TState),
      (ns.foldl (visitNeighbour start c) s).visited = s.visited ∧
      (ns.foldl (visitNeighbour start c) s).qeue = s.qeue ++ ns := by
  intro ns
  induction ns with
  | nil => intro s; simp
  | cons n ns ih =>
    intro s
    rw [List.foldl_cons]
    obtain ⟨hv, hq⟩ := ih (visitNeighbour start c s n)
    rw [hv, hq, visitNeighbour_visited, visitNeighbour_qeue]
    simp

end TreeDiameter

namespace BfsPy

/-- The knight run `(0,0) → (2,1)` after GoalFound: the queue still holds
`(1,2)`, `running_bfs` is false. -/
def goalFoundState : GState :=
  run_bfs get_knight_moves 200 (start_bfs (initState ⟨0, 0⟩ ⟨2, 1⟩))

/-- The knight run `(0,0) → (1,2)` run to completion (GoalFound). -/
def completedRun : GState :=
  run_bfs get_knight_moves 200 (start_bfs (initState ⟨0, 0⟩ ⟨1, 2⟩))

/-- The `backtrack` loop returns its accumulator as soon as `curr` is `None`,
whatever fuel is left. -/
theorem backtrack_none (ps : List (Point × Option Point))
    (st : Option Point) (acc : List Point) :
    ∀ fuel, backtrack ps st fuel none acc = acc
  | 0 => rfl
  | _ + 1 => rfl

/-- The frontier/visited invariant of the grid BFS: the visited set has no
duplicates, the frontier has no duplicates, and every queued square is
already visited. -/
abbrev Inv (s : GState) : Prop :=
  s.visited.Nodup ∧ s.queue.Nodup ∧ ∀ n ∈ s.queue, n ∈ s.visited

/-- The expansion loop appends the same `new` squares (each previously
unvisited) to both the visited list and the queue, preserving the
invariant. -/
theorem expand_inv (current : Point) (nbrs : List Point) :
    ∀ s : GState, s.visited.Nodup → s.queue.Nodup →
      (∀ n ∈ s.queue, n ∈ s.visited) →
      ∃ new, (expand current nbrs s).visited = s.visited ++ new ∧
        (expand current nbrs s).queue = s.queue ++ new ∧
        (expand current nbrs s).visited.Nodup ∧
        (expand current nbrs s).queue.Nodup ∧
        ∀ n ∈ (expand current nbrs s).queue,
          n ∈ (expand current nbrs s).visited := by
  induction nbrs with
  | nil =>
    intro s h1 h2 h3
    exact ⟨[], by simp [expand], by simp [expand], by simpa [expand],
      by simpa [expand], by simpa [expand]⟩
  | cons n ns ih =>
    intro s h1 h2 h3
    simp only [expand, List.foldl_cons] at *
    by_cases hn : n ∈ s.visited
    · rw [if_pos hn]
      exact ih s h1 h2 h3
    · rw [if_neg hn]
      have hnq : n ∉ s.queue := fun hq => hn (h3 n hq)
      have h1' : (s.visited ++ [n]).Nodup := by
        simp [List.nodup_append, h1, hn]
      have h2' : (s.queue ++ [n]).Nodup := by
        simp [List.nodup_append, h2, hnq]
      have h3' : ∀ m ∈ s.queue ++ [n], m ∈ s.visited ++ [n] := by
        intro m hm
        rcases List.mem_append.1 hm with hm | hm
        · exact List.mem_append.2 (Or.inl (h3 m hm))
        · exact List.mem_append.2 (Or.inr hm)
      obtain ⟨new, e1, e2, p3, p4, p5⟩ := ih
        { s with
          visited := s.visited ++ [n]
          parents := s.parents ++ [(n, some current)]
          queue := s.queue ++ [n]
          edges_explored := s.edges_explored ++ [(current, n)] }
        h1' h2' h3'
      refine ⟨n :: new, ?_, ?_, p3, p4, p5⟩
      · rw [e1]; simp
      · rw [e2]; simp

end BfsPy

/-- C2 amended: (grid half) for the grid engine's `step_bfs`, every state
satisfying the frontier/visited invariant steps to a state satisfying it,
and the squares appended to the visited list during the step are exactly
the squares appended to the frontier — so a square enters the visited set
exactly once, at the moment it is enqueued, never when dequeued, and the
frontier never holds a square twice.  (tree half) tree_diameter.py's `bfs`
instead changes its Visited flags only by marking the dequeued head at the
moment of its expansion. -/
theorem C2_visited_discipline :
    (∀ (mf : BfsPy.Point → List BfsPy.Point) (s : BfsPy.GState),
      BfsPy.Inv s →
      BfsPy.Inv (BfsPy.step_bfs mf s) ∧
      ∃ new, (BfsPy.step_bfs mf s).visited = s.visited ++ new ∧
        (BfsPy.step_bfs mf s).queue = s.queue.tail ++ new) ∧
    (∀ (adj : TreeDiameter.NodeId → List TreeDiameter.NodeId)
        (start : TreeDiameter.NodeId) (t : TreeDiameter.TState),
      (TreeDiameter.tStep adj start t).visited = t.visited ∨
      ∃ c, t.qeue.head? = some c ∧ c ∉ t.visited ∧
        (TreeDiameter.tStep adj start t).visited = t.visited ++ [c]) := by
  constructor
  · intro mf s hI
    obtain ⟨h1, h2, h3⟩ := hI
    match hq : s.queue with
    | [] =>
      have hs : BfsPy.step_bfs mf s = { s with running_bfs := false } := by
        unfold BfsPy.step_bfs
        rw [hq]
      rw [hs]
      exact ⟨⟨h1, h2, h3⟩, [], by simp, by simp [hq]⟩
    | c :: rest =>
      have h2r : rest.Nodup := by rw [hq] at h2; exact h2.of_cons
      have h3r : ∀ n ∈ rest, n ∈ s.visited := by
        intro n hn; exact h3 n (by rw [hq]; exact List.mem_cons_of_mem _ hn)
      unfold BfsPy.step_bfs
      rw [hq]
      dsimp only
      by_cases hg : s.goal_pos = some c
      · rw [if_pos hg]
        unfold BfsPy.reconstruct_path
        exact ⟨⟨h1, h2r, h3r⟩, [], by simp, by simp [hq]⟩
      · rw [if_neg hg]
        obtain ⟨new, e1, e2, p3, p4, p5⟩ :=
          BfsPy.expand_inv c (mf c)
            { s with queue := rest, current_node := some c } h1 h2r h3r
        exact ⟨⟨p3, p4, p5⟩, new, e1, by rw [e2]; rfl⟩
  · intro adj start t
    match ht : t.qeue with
    | [] => left; simp [TreeDiameter.tStep, ht]
    | c :: rest =>
      by_cases hc : c ∈ t.visited
      · left
        unfold TreeDiameter.tStep
        rw [ht]
        dsimp only
        rw [if_pos hc]
      · right
        refine ⟨c, rfl, hc, ?_⟩
        unfold TreeDiameter.tStep
        rw [ht]
        dsimp only
        rw [if_neg hc]
        exact congrArg (· ++ [c])
          (TreeDiameter.visitFold_spec start c (adj c) t).1

/-- Witness for C2's amended theorem: the freshly started knight search
satisfies the invariant, and so does its first step. -/
theorem C2_witness :
    BfsPy.Inv (BfsPy.start_bfs (BfsPy.initState ⟨0, 0⟩ ⟨1, 2⟩)) ∧
    BfsPy.Inv (BfsPy.step_bfs BfsPy.get_knight_moves
      (BfsPy.start_bfs (BfsPy.initState ⟨0, 0⟩ ⟨1, 2⟩))) :=
  ⟨by decide,
   (C2_visited_discipline.1 BfsPy.get_knight_moves
     (BfsPy.start_bfs (BfsPy.initState ⟨0, 0⟩ ⟨1, 2⟩)) (by decide)).1⟩

/-- C1: the claim says node removal must delete the node from every other
node's neighbour set and discard every edge touching it.  On the two-node
editor graph `g2` (nodes 0, 1 joined by one edge), deleting node 0 does
empty the edge list and drop 0 from the node list, but node 1's
`Neighbours` list still contains 0: the DELETE handler never touches
`Neighbours`, so the remaining node still lists the removed node as a
neighbour, contradicting the claim (and the code's own intent of removing
the node and all of its edges, since `bfs` traverses `Neighbours`, not the
edge list). -/
theorem C1_removal_leaves_stale_neighbour :
    (TreeDiameter.removeNode TreeDiameter.g2 0).nodes = [1] ∧
    (TreeDiameter.removeNode TreeDiameter.g2 0).edges = [] ∧
    0 ∈ TreeDiameter.lookupNbrs (TreeDiameter.removeNode TreeDiameter.g2 0) 1 := by
  decide

/-- C2 counterexample: in tree_diameter.py's `bfs` on the path graph
1 — 0 — 2 started at 0, after one loop iteration node 1 is in the queue but
not yet Visited (so nodes are not marked visited when enqueued); it becomes
Visited only at its own expansion (iteration 2, when dequeued); and after
three iterations the queue is `[0, 0]`, containing the same node twice.
This refutes the claim for the diameter tool's BFS. -/
theorem C2_counterexample :
    ¬ (TreeDiameter.tRun TreeDiameter.pathAdj 0 3 (TreeDiameter.tInit 0)).qeue.Nodup ∧
    1 ∈ (TreeDiameter.tRun TreeDiameter.pathAdj 0 1 (TreeDiameter.tInit 0)).qeue ∧
    1 ∉ (TreeDiameter.tRun TreeDiameter.pathAdj 0 1 (TreeDiameter.tInit 0)).visited ∧
    1 ∈ (TreeDiameter.tRun TreeDiameter.pathAdj 0 2 (TreeDiameter.tInit 0)).visited := by
  decide

/-- C3 counterexample: after the knight run `(0,0) → (2,1)` reaches
GoalFound, the stepper is not Running (`running_bfs = false`) yet the queue
is non-empty; invoking `step_bfs` again does not fail (the code has no
`InvalidStateError`) — it performs a full expansion, growing the visited
set from 3 to 8 nodes.  This refutes both the failure and the
no-state-change parts of the claim. -/
theorem C3_counterexample :
    BfsPy.goalFoundState.running_bfs = false ∧
    BfsPy.goalFoundState.path_found = true ∧
    BfsPy.goalFoundState.queue ≠ [] ∧
    BfsPy.goalFoundState.visited.length = 3 ∧
    (BfsPy.step_bfs BfsPy.get_knight_moves BfsPy.goalFoundState).visited.length = 8 := by
  decide

/-- C3 amended: `step_bfs` performs no Running-state check and cannot fail;
on an empty frontier it returns with `running_bfs` cleared and every other
field unchanged (and on a non-Running stepper with a non-empty frontier it
simply performs a normal expansion step, as the counterexample shows). -/
theorem C3_empty_queue_step (mf : BfsPy.Point → List BfsPy.Point)
    (s : BfsPy.GState) (h : s.queue = []) :
    BfsPy.step_bfs mf s = { s with running_bfs := false } := by
  unfold BfsPy.step_bfs
  rw [h]

/-- Witness for C3's amended theorem at a concrete state with an empty
queue. -/
theorem C3_witness :
    BfsPy.step_bfs BfsPy.get_knight_moves (BfsPy.initState ⟨0, 0⟩ ⟨1, 2⟩) =
      { BfsPy.initState ⟨0, 0⟩ ⟨1, 2⟩ with running_bfs := false } :=
  C3_empty_queue_step BfsPy.get_knight_moves (BfsPy.initState ⟨0, 0⟩ ⟨1, 2⟩) rfl

/-- C4 counterexample: the knight run `(0,0) → (1,2)` completes with a
parent map that has no key `(5,5)`; requesting reconstruction for goal
`(5,5)` does not fail (the code has no `UnreachablePathError`) — it
returns the one-element sequence `[(5,5)]`. -/
theorem C4_counterexample :
    BfsPy.completedRun.path_found = true ∧
    BfsPy.completedRun.parents.lookup ⟨5, 5⟩ = none ∧
    (BfsPy.reconstruct_path
        { BfsPy.completedRun with goal_pos := some ⟨5, 5⟩ }).shortest_path =
      [⟨5, 5⟩] := by
  decide

/-- C4 amended: for any state whose goal is not a key of the parents map,
`reconstruct_path` returns the single-element sequence `[goal]` instead of
failing: the backtrack loop appends the goal, `parents.get` yields `None`,
and the loop exits. -/
theorem C4_missing_goal_singleton (s : BfsPy.GState) (g : BfsPy.Point)
    (hg : s.goal_pos = some g) (hm : s.parents.lookup g = none) :
    (BfsPy.reconstruct_path s).shortest_path = [g] := by
  unfold BfsPy.reconstruct_path
  rw [hg]
  show (BfsPy.backtrack s.parents s.start_pos (s.parents.length + 1)
      (some g) []).reverse = [g]
  unfold BfsPy.backtrack
  dsimp only
  split
  · rfl
  · rw [show BfsPy.parentsGet s.parents g = none by
        simp [BfsPy.parentsGet, hm]]
    rw [BfsPy.backtrack_none]
    simp

/-- Witness for C4's amended theorem at a concrete state whose parents map
lacks the goal `(5,5)`. -/
theorem C4_witness :
    (BfsPy.reconstruct_path
        { BfsPy.initState ⟨0, 0⟩ ⟨5, 5⟩ with
            parents := [(⟨0, 0⟩, none)] }).shortest_path = [⟨5, 5⟩] :=
  C4_missing_goal_singleton _ ⟨5, 5⟩ rfl (by decide)

/-- C5: in the diameter tool's per-neighbour discovery step (the body of
the loop in `bfs`), the running farthest node either stays unchanged or is
replaced by the processed neighbour, and replacement happens only when the
neighbour's freshly assigned distance strictly exceeds the current farthest
node's distance — so a later node at an equal (tied) distance never
replaces it. -/
theorem C5_farthest_strict_update (start c : TreeDiameter.NodeId)
    (s : TreeDiameter.TState) (n : TreeDiameter.NodeId) :
    (TreeDiameter.visitNeighbour start c s n).far_node = s.far_node ∨
    ((TreeDiameter.visitNeighbour start c s n).far_node = n ∧
      TreeDiameter.lookupDist (TreeDiameter.visitNeighbour start c s n).dist n >
        TreeDiameter.lookupDist (TreeDiameter.visitNeighbour start c s n).dist
          s.far_node) := by
  unfold TreeDiameter.visitNeighbour
  dsimp only
  split
  · split
    · rename_i hlt
      right
      exact ⟨rfl, hlt⟩
    · left; rfl
  · left; rfl

/-- C6: on the 5-node star graph (centre 0, leaves 1–4), `find_diameter`
started from every seed returns diameter 2 with two distinct leaf
endpoints, and each BFS pass drains its queue within the given fuel. -/
theorem C6_star_diameter :
    ∀ seed ∈ [0, 1, 2, 3, 4],
      (TreeDiameter.find_diameter TreeDiameter.starAdj 100 seed).2 = 2 ∧
      (TreeDiameter.find_diameter TreeDiameter.starAdj 100 seed).1.1 ≠
        (TreeDiameter.find_diameter TreeDiameter.starAdj 100 seed).1.2 ∧
      (TreeDiameter.find_diameter TreeDiameter.starAdj 100 seed).1.1 ∈
        [1, 2, 3, 4] ∧
      (TreeDiameter.find_diameter TreeDiameter.starAdj 100 seed).1.2 ∈
        [1, 2, 3, 4] ∧
      (TreeDiameter.tRun TreeDiameter.starAdj seed 100
        (TreeDiameter.tInit seed)).qeue = [] := by
  decide

/-- Witness for C6 at seed 0 (the centre). -/
theorem C6_witness :
    (TreeDiameter.find_diameter TreeDiameter.starAdj 100 0).2 = 2 ∧
    (TreeDiameter.find_diameter TreeDiameter.starAdj 100 0).1.1 ≠
      (TreeDiameter.find_diameter TreeDiameter.starAdj 100 0).1.2 ∧
    (TreeDiameter.find_diameter TreeDiameter.starAdj 100 0).1.1 ∈
      [1, 2, 3, 4] ∧
    (TreeDiameter.find_diameter TreeDiameter.starAdj 100 0).1.2 ∈
      [1, 2, 3, 4] ∧
    (TreeDiameter.tRun TreeDiameter.starAdj 0 100
      (TreeDiameter.tInit 0)).qeue = [] :=
  C6_star_diameter 0 (by decide)

/-- C7: with the knight topology and start `(0,0)`, the completed run to
goal `(1,2)` reconstructs a path of 2 nodes (one move) and the run to goal
`(0,1)` a path of 4 nodes (three moves); both runs reach GoalFound. -/
theorem C7_knight_path_lengths :
    (BfsPy.run_bfs BfsPy.get_knight_moves 200
        (BfsPy.start_bfs (BfsPy.initState ⟨0, 0⟩ ⟨1, 2⟩))).shortest_path.length
      = 2 ∧
    (BfsPy.run_bfs BfsPy.get_knight_moves 200
        (BfsPy.start_bfs (BfsPy.initState ⟨0, 0⟩ ⟨1, 2⟩))).path_found = true ∧
    (BfsPy.run_bfs BfsPy.get_knight_moves 200
        (BfsPy.start_bfs (BfsPy.initState ⟨0, 0⟩ ⟨0, 1⟩))).shortest_path.length
      = 4 ∧
    (BfsPy.run_bfs BfsPy.get_knight_moves 200
        (BfsPy.start_bfs (BfsPy.initState ⟨0, 0⟩ ⟨0, 1⟩))).path_found = true := by
  decide

/-- C10: `start_bfs` with no start square, or no goal square, or a search
already running, returns the state entirely unchanged: nothing is enqueued,
no container is cleared, no flag is toggled. -/
theorem C10_start_bfs_noop (s : BfsPy.GState)
    (h : s.start_pos = none ∨ s.goal_pos = none ∨ s.running_bfs = true) :
    BfsPy.start_bfs s = s := by
  obtain ⟨sp, gp, rb, pf, ap, q, v, ps, ee, cn, shp⟩ := s
  cases sp <;> cases gp <;> cases rb <;>
    simp_all [BfsPy.start_bfs]

/-- Witness for C10 at a concrete state with a search already running. -/
theorem C10_witness :
    BfsPy.start_bfs { BfsPy.initState ⟨0, 0⟩ ⟨1, 2⟩ with running_bfs := true }
      = { BfsPy.initState ⟨0, 0⟩ ⟨1, 2⟩ with running_bfs := true } :=
  C10_start_bfs_noop _ (Or.inr (Or.inr rfl))

/-- The state one step before the knight run `(0,0) → (1,2)` dequeues its
goal: the goal square is at the head of the frontier. -/
def BfsPy.preGoalState : BfsPy.GState :=
  { BfsPy.initState ⟨0, 0⟩ ⟨1, 2⟩ with
      queue := [⟨1, 2⟩], visited := [⟨0, 0⟩, ⟨2, 1⟩, ⟨1, 2⟩],
      running_bfs := true }

/-- C8: when `step_bfs` dequeues the configured goal as `current`, the run
transitions to GoalFound (`running_bfs` false, `path_found` and
`animating_path` true) and the step performs no neighbour expansion: the
visited set, parents map and explored-edge log are unchanged and nothing
is enqueued (the frontier only loses its head). -/
theorem C8_goal_dequeue_no_expansion (mf : BfsPy.Point → List BfsPy.Point)
    (s : BfsPy.GState) (g : BfsPy.Point) (rest : List BfsPy.Point)
    (hq : s.queue = g :: rest) (hg : s.goal_pos = some g) :
    (BfsPy.step_bfs mf s).visited = s.visited ∧
    (BfsPy.step_bfs mf s).parents = s.parents ∧
    (BfsPy.step_bfs mf s).edges_explored = s.edges_explored ∧
    (BfsPy.step_bfs mf s).queue = rest ∧
    (BfsPy.step_bfs mf s).running_bfs = false ∧
    (BfsPy.step_bfs mf s).path_found = true ∧
    (BfsPy.step_bfs mf s).animating_path = true := by
  unfold BfsPy.step_bfs
  rw [hq]
  dsimp only
  rw [if_pos hg]
  unfold BfsPy.reconstruct_path
  exact ⟨rfl, rfl, rfl, rfl, rfl, rfl, rfl⟩

/-- Witness for C8 at the concrete pre-goal state of the knight run. -/
theorem C8_witness :
    (BfsPy.step_bfs BfsPy.get_knight_moves BfsPy.preGoalState).visited =
      BfsPy.preGoalState.visited ∧
    (BfsPy.step_bfs BfsPy.get_knight_moves BfsPy.preGoalState).parents =
      BfsPy.preGoalState.parents ∧
    (BfsPy.step_bfs BfsPy.get_knight_moves BfsPy.preGoalState).edges_explored =
      BfsPy.preGoalState.edges_explored ∧
    (BfsPy.step_bfs BfsPy.get_knight_moves BfsPy.preGoalState).queue = [] ∧
    (BfsPy.step_bfs BfsPy.get_knight_moves BfsPy.preGoalState).running_bfs =
      false ∧
    (BfsPy.step_bfs BfsPy.get_knight_moves BfsPy.preGoalState).path_found =
      true ∧
    (BfsPy.step_bfs BfsPy.get_knight_moves BfsPy.preGoalState).animating_path =
      true :=
  C8_goal_dequeue_no_expansion BfsPy.get_knight_moves BfsPy.preGoalState
    ⟨1, 2⟩ [] rfl rfl

namespace TreeDiameter

/-- An upper bound on the length of every node's `Neighbours` list. -/
def maxDeg (nodesL : List NodeId) (adj : NodeId → List NodeId) : Nat :=
  (nodesL.map (fun n => (adj n).length)).foldr max 0

/-- Every member of a list of naturals is bounded by its `foldr max 0`. -/
theorem le_foldr_max (l : List Nat) : ∀ x ∈ l, x ≤ l.foldr max 0 := by
  induction l with
  | nil => simp
  | cons a t ih =>
    intro x hx
    rcases List.mem_cons.1 hx with rfl | hx
    · exact le_max_left _ _
    · exact le_trans (ih x hx) (le_max_right _ _)

/-- The degree of a graph node is at most `maxDeg`. -/
theorem maxDeg_bound (nodesL : List NodeId) (adj : NodeId → List NodeId)
    (n : NodeId) (hn : n ∈ nodesL) : (adj n).length ≤ maxDeg nodesL adj :=
  le_foldr_max _ _ (List.mem_map_of_mem _ hn)

/-- Termination invariant of the `while(qeue)` loop: every queued identity
is a node of the graph, and the Visited list is duplicate-free and holds
only graph nodes. -/
def InvT (nodesL : List NodeId) (s : TState) : Prop :=
  (∀ q ∈ s.qeue, q ∈ nodesL) ∧ s.visited.Nodup ∧ ∀ v ∈ s.visited, v ∈ nodesL

/-- Termination measure: the unvisited-node budget weighted by the degree
bound, plus the queue length. -/
def mu (nodesL : List NodeId) (adj : NodeId → List NodeId) (s : TState) :
    Nat :=
  (nodesL.length - s.visited.length) * (maxDeg nodesL adj + 1) +
    s.qeue.length

/-- The arithmetic core of the measure decrease: marking one more node
Visited frees a whole `(D + 1)` budget that dominates the at most `D` new
queue entries. -/
theorem mu_key (L v D r d : Nat) (hv : v + 1 ≤ L) (hd : d ≤ D) :
    (L - (v + 1)) * (D + 1) + (r + d) < (L - v) * (D + 1) + (r + 1) := by
  have hsplit : L - v = (L - (v + 1)) + 1 := by omega
  rw [hsplit, Nat.succ_mul]
  generalize (L - (v + 1)) * (D + 1) = m
  omega

/-- One loop iteration on a non-empty queue preserves the invariant and
strictly decreases the measure: a visited head is just popped, and an
unvisited head marks one more graph node Visited while appending at most
`maxDeg` entries. -/
theorem tStep_decrease (nodesL : List NodeId) (adj : NodeId → List NodeId)
    (start : NodeId) (hclosed : ∀ n ∈ nodesL, ∀ m ∈ adj n, m ∈ nodesL)
    (s : TState) (c : NodeId) (rest : List NodeId) (hq : s.qeue = c :: rest)
    (hI : InvT nodesL s) :
    InvT nodesL (tStep adj start s) ∧
      mu nodesL adj (tStep adj start s) < mu nodesL adj s := by
  obtain ⟨hqn, hvd, hvn⟩ := hI
  have hc : c ∈ nodesL := hqn c (by rw [hq]; exact List.mem_cons_self _ _)
  have hstep : tStep adj start s =
      if c ∈ s.visited then { s with qeue := s.qeue.tail }
      else
        let s1 := (adj c).foldl (visitNeighbour start c) s
        { s1 with visited := s1.visited ++ [c], qeue := s1.qeue.tail } := by
    unfold tStep
    rw [hq]
  rw [hstep]
  by_cases hcv : c ∈ s.visited
  · rw [if_pos hcv]
    refine ⟨⟨?_, hvd, hvn⟩, ?_⟩
    · intro q hq'
      exact hqn q (List.mem_of_mem_tail hq')
    · unfold mu
      dsimp only
      rw [hq]
      have : (c :: rest).tail.length < (c :: rest).length := by simp
      omega
  · rw [if_neg hcv]
    obtain ⟨hfv, hfq⟩ := visitFold_spec start c (adj c) s
    have hres : ((adj c).foldl (visitNeighbour start c) s).qeue.tail =
        rest ++ adj c := by
      rw [hfq, hq]
      rfl
    constructor
    · refine ⟨?_, ?_, ?_⟩
      · intro q hq'
        dsimp only at hq'
        rw [hres] at hq'
        rcases List.mem_append.1 hq' with h | h
        · exact hqn q (by rw [hq]; exact List.mem_cons_of_mem _ h)
        · exact hclosed c hc q h
      · dsimp only
        rw [hfv]
        simp [List.nodup_append, hvd, hcv]
      · intro v hv
        dsimp only at hv
        rw [hfv] at hv
        rcases List.mem_append.1 hv with h | h
        · exact hvn v h
        · rw [List.mem_singleton.1 h]; exact hc
    · have hlen : s.visited.length + 1 ≤ nodesL.length := by
        have hnd : (s.visited ++ [c]).Nodup := by
          simp [List.nodup_append, hvd, hcv]
        have hsub : s.visited ++ [c] ⊆ nodesL := by
          intro v hv
          rcases List.mem_append.1 hv with h | h
          · exact hvn v h
          · rw [List.mem_singleton.1 h]; exact hc
        have := (List.subperm_of_subset hnd hsub).length_le
        simpa using this
      have hd : (adj c).length ≤ maxDeg nodesL adj := maxDeg_bound _ _ _ hc
      unfold mu
      dsimp only
      rw [hfv, hres, hq]
      simp only [List.length_append, List.length_cons, List.length_nil,
        Nat.zero_add]
      exact mu_key nodesL.length s.visited.length (maxDeg nodesL adj)
        rest.length (adj c).length hlen hd

/-- With fuel at least the measure, the `while(qeue)` loop drains the
queue completely. -/
theorem tRun_drains (nodesL : List NodeId) (adj : NodeId → List NodeId)
    (start : NodeId) (hclosed : ∀ n ∈ nodesL, ∀ m ∈ adj n, m ∈ nodesL) :
    ∀ (fuel : Nat) (s : TState), InvT nodesL s →
      mu nodesL adj s ≤ fuel → (tRun adj start fuel s).qeue = [] := by
  intro fuel
  induction fuel with
  | zero =>
    intro s _ hmu
    have hq : s.qeue.length = 0 :=
      Nat.le_zero.1 (le_trans (Nat.le_add_left _ _) hmu)
    have : s.qeue = [] := List.eq_nil_of_length_eq_zero hq
    unfold tRun
    exact this
  | succ fuel ih =>
    intro s hI hmu
    match hq : s.qeue with
    | [] =>
      unfold tRun
      rw [hq]
      exact hq
    | c :: rest =>
      obtain ⟨hI', hlt⟩ := tStep_decrease nodesL adj start hclosed s c rest
        hq hI
      have hrun : tRun adj start (fuel + 1) s =
          tRun adj start fuel (tStep adj start s) := by
        conv_lhs => rw [tRun]
        rw [hq]
      rw [hrun]
      exact ih (tStep adj start s) hI' (by omega)

end TreeDiameter

/-- C9: for every finite user-built graph (a node list closed under the
`Neighbours` relation) and every start node in it, the diameter tool's
BFS-to-completion loop terminates — some finite fuel drains the queue —
even though every neighbour of an expanded node is enqueued without a
visited check: each node is expanded at most once (it is marked Visited at
its first dequeue) and already-Visited queue entries are only popped. -/
theorem C9_tree_bfs_terminates (nodesL : List TreeDiameter.NodeId)
    (adj : TreeDiameter.NodeId → List TreeDiameter.NodeId)
    (start : TreeDiameter.NodeId) (hstart : start ∈ nodesL)
    (hclosed : ∀ n ∈ nodesL, ∀ m ∈ adj n, m ∈ nodesL) :
    ∃ fuel, (TreeDiameter.tRun adj start fuel
      (TreeDiameter.tInit start)).qeue = [] := by
  refine ⟨TreeDiameter.mu nodesL adj (TreeDiameter.tInit start),
    TreeDiameter.tRun_drains nodesL adj start hclosed _
      (TreeDiameter.tInit start) ⟨?_, ?_, ?_⟩ le_rfl⟩
  · intro q hq
    rw [List.mem_singleton.1 hq]
    exact hstart
  · exact List.nodup_nil
  · intro v hv
    exact absurd hv (List.not_mem_nil v)

/-- Witness for C9 on the concrete 5-node star graph started at the
centre. -/
theorem C9_witness :
    ∃ fuel, (TreeDiameter.tRun TreeDiameter.starAdj 0 fuel
      (TreeDiameter.tInit 0)).qeue = [] :=
  C9_tree_bfs_terminates [0, 1, 2, 3, 4] TreeDiameter.starAdj 0
    (by decide) (by decide)
